import Mathlib

/-!
Verification development for go-cache-prune.

The Go program watches the Go module cache and build cache for file
accesses, accumulates the set of used cache paths, and afterwards walks
both caches deleting entries that were not used.  This file embeds the
relevant functions of `main.go` (the classifier `dependencyDir`, the
watch-phase walk and event loop of `watchCache`, the prune walk of
`pruneCaches`, the error routing of `watchCaches`/`mainErr`) as
executable Lean definitions over a tree model of the filesystem, and
proves or refutes the specified properties.

Modelling conventions:
- a filesystem path is a list of name components (`Path`);
- a filesystem tree is the nested inductive `Entry`;
- `filepath.WalkDir` semantics are embedded faithfully, including the
  second callback invocation that Go performs when reading a directory
  fails after its visit (which happens when the callback itself deleted
  the directory), and the fact that returning `nil` from the callback
  lets the walk descend into a directory;
- `os.RemoveAll` on a path that no longer exists succeeds (as in Go),
  so stale visits of already-deleted entries still bump the tally;
- permissions (`chmodDir`) are not modelled: `chmodDir` never affects
  the tree and never stops the walk.
-/

namespace GoCachePrune

/-- A filesystem path, as a list of name components. -/
abbrev Path := List String

/-- A filesystem tree: regular files and directories with ordered children. -/
inductive Entry where
  | file (name : String)
  | dir (name : String) (children : List Entry)
deriving Repr

/-- Name of an entry, as `fs.DirEntry.Name` reports it. -/
def Entry.name : Entry → String
  | .file n => n
  | .dir n _ => n

/-- Last component of a path; models `d.Name()` for an entry visited at that path. -/
def lastName : Path → String
  | [] => ""
  | [n] => n
  | _ :: rest => lastName rest

/-- Digit test, as the byte-range checks in `golang.org/x/mod/semver`. -/
def isDigitCh (c : Char) : Bool :=
  decide ('0' ≤ c) && decide (c ≤ '9')

/-- Alphanumeric test, as the `[A-Za-z0-9]` class that the pseudo-version
pattern uses for the short commit hash. -/
def isAlnumCh (c : Char) : Bool :=
  (decide ('A' ≤ c) && decide (c ≤ 'Z')) || (decide ('a' ≤ c) && decide (c ≤ 'z')) || isDigitCh c

/-- Identifier characters of semver prerelease/build segments (`isIdentChar` in x/mod). -/
def isIdentCh (c : Char) : Bool :=
  (decide ('A' ≤ c) && decide (c ≤ 'Z')) || (decide ('a' ≤ c) && decide (c ≤ 'z')) ||
    isDigitCh c || decide (c = '-')

/-- Split a character list at every dot, keeping empty segments. -/
def splitDots : List Char → List (List Char)
  | [] => [[]]
  | c :: rest =>
    if c = '.' then [] :: splitDots rest
    else
      match splitDots rest with
      | [] => [[c]]
      | s :: ss => (c :: s) :: ss

/-- Count occurrences of a character, as `strings.Count` with a one-character separator. -/
def countCh (c : Char) (l : List Char) : Nat :=
  l.countP (· = c)

/-- The `isBadNum` check of x/mod semver: an all-digit segment longer than one
character that starts with a leading zero. -/
def isBadNum (seg : List Char) : Bool :=
  seg.all isDigitCh && decide (1 < seg.length) &&
    (match seg with | c :: _ => decide (c = '0') | [] => false)

/-- The `parseInt` step of x/mod semver: one or more digits with no leading
zero, returning the remainder. -/
def parseIntCh (v : List Char) : Option (List Char) :=
  let ds := v.takeWhile isDigitCh
  if ds.isEmpty then none
  else if isBadNum ds then none
  else some (v.dropWhile isDigitCh)

/-- Prerelease/build segment list check of x/mod semver: chars restricted to
identifier chars, no empty dot-separated segment, and (for prerelease only)
no all-numeric segment with a leading zero. -/
def segsOK (checkNum : Bool) (span : List Char) : Bool :=
  span.all (fun c => isIdentCh c || decide (c = '.')) &&
    (splitDots span).all (fun seg => !seg.isEmpty && (!checkNum || !isBadNum seg))

/-- Tail of the x/mod semver parser after the major.minor.patch triple:
optional `-prerelease`, optional `+build`, then end of string. -/
def semverTail (v : List Char) : Bool :=
  let (pre, rest) :=
    match v with
    | '-' :: r => (some (r.takeWhile (· ≠ '+')), r.dropWhile (· ≠ '+'))
    | _ => (none, v)
  let preOK := match pre with
    | some span => segsOK true span
    | none => v.isEmpty || (match v with | '+' :: _ => true | _ => false)
  let buildOK := match rest with
    | [] => true
    | '+' :: r => segsOK false r
    | _ => false
  preOK && buildOK

/-- The `semver.IsValid` function of `golang.org/x/mod/semver`: a leading `v`,
then up to three dot-separated numbers, then optional prerelease and build. -/
def semverIsValid (v : String) : Bool :=
  match v.data with
  | 'v' :: rest =>
    match parseIntCh rest with
    | none => false
    | some r1 =>
      if r1.isEmpty then true
      else match r1 with
        | '.' :: r2 =>
          match parseIntCh r2 with
          | none => false
          | some r3 =>
            if r3.isEmpty then true
            else match r3 with
              | '.' :: r4 =>
                match parseIntCh r4 with
                | none => false
                | some r5 => semverTail r5
              | _ => false
        | _ => false
  | _ => false

/-- Matcher for the suffix of the pseudo-version pattern:
`\d{14}-[A-Za-z0-9]+(\+incompatible)?$`. -/
def pseudoVerTail (s : List Char) : Bool :=
  let stamp := s.take 14
  let rest := s.drop 14
  decide (stamp.length = 14) && stamp.all isDigitCh &&
    (match rest with
     | '-' :: r =>
       let hash := r.takeWhile isAlnumCh
       let rem := r.dropWhile isAlnumCh
       !hash.isEmpty && (rem.isEmpty || decide (rem = "+incompatible".data))
     | _ => false)

/-- Matcher for the optional `([^+]*\.)?0\.` part of the pseudo-version
pattern followed by `pseudoVerTail`: tries every split where a dot closes a
plus-free prefix. -/
def pseudoMid : List Char → Bool
  | [] => false
  | c :: cs =>
    (decide (c = '.') && (match cs with
       | '0' :: '.' :: r => pseudoVerTail r
       | _ => false)) ||
    (decide (c ≠ '+') && pseudoMid cs)

/-- Matcher for the alternation in the pseudo-version pattern after `v\d+\.`:
either `0\.0-` or `\d+\.\d+-([^+]*\.)?0\.`, each followed by the tail. -/
def pseudoAfterMajor (s : List Char) : Bool :=
  (match s with
   | '0' :: '.' :: '0' :: '-' :: r => pseudoVerTail r
   | _ => false) ||
  (let ds1 := s.takeWhile isDigitCh
   let r1 := s.dropWhile isDigitCh
   !ds1.isEmpty &&
     (match r1 with
      | '.' :: r2 =>
        let ds2 := r2.takeWhile isDigitCh
        let r3 := r2.dropWhile isDigitCh
        !ds2.isEmpty &&
          (match r3 with
           | '-' :: r4 =>
             (match r4 with
              | '0' :: '.' :: r5 => pseudoVerTail r5
              | _ => false) || pseudoMid r4
           | _ => false)
      | _ => false))

/-- The `module.IsPseudoVersion` function of `golang.org/x/mod/module`:
at least two dashes and a match of the anchored pseudo-version pattern
`^v[0-9]+\.(0\.0-|\d+\.\d+-([^+]*\.)?0\.)\d{14}-[A-Za-z0-9]+(\+incompatible)?$`. -/
def isPseudoVersion (v : String) : Bool :=
  decide (2 ≤ countCh '-' v.data) &&
    (match v.data with
     | 'v' :: rest =>
       let ds := rest.takeWhile isDigitCh
       let r1 := rest.dropWhile isDigitCh
       !ds.isEmpty &&
         (match r1 with
          | '.' :: r2 => pseudoAfterMajor r2
          | _ => false)
     | _ => false)

/-- The remainder of a name after its first `@`, as `strings.Cut(name, "@")`
returns it (empty when there is no `@`). -/
def cutAfterAt : List Char → List Char
  | [] => []
  | c :: cs => if c = '@' then cs else cutAfterAt cs

/-- The `strings.HasSuffix(ver, "+incompatible")` test of `dependencyDir`. -/
def hasIncompatibleSuffix (l : List Char) : Bool :=
  decide (13 ≤ l.length) && decide (l.drop (l.length - 13) = "+incompatible".data)

/-- The version-token test inside `dependencyDir`: ends with `+incompatible`,
or is valid semver, or is a pseudo-version. -/
def verOK (ver : List Char) : Bool :=
  hasIncompatibleSuffix ver || semverIsValid (String.mk ver) || isPseudoVersion (String.mk ver)

/-- Directory-name side of `dependencyDir`: the name contains `@` and the part
after the first `@` passes the version-token test. -/
def isUnitDirName (name : String) : Bool :=
  name.data.any (· = '@') && verOK (cutAfterAt name.data)

/-- The classifier `dependencyDir` of `main.go`: a directory whose name holds a
valid module version after `@` is a dependency dir; a non-directory named
`go.mod` marks its parent directory as a dependency dir; anything else is not
one. -/
def dependencyDir (path : Path) (isDir : Bool) : Option Path :=
  if isDir && isUnitDirName (lastName path) then some path
  else if !isDir && decide (lastName path = "go.mod") then some path.dropLast
  else none

/-! ### Watch phase (`watchCache` in `main.go`) -/

/-- Insert a path if it is not already present, keeping insertion order.  This
is both how `watcher.AddDescriptor` behaves once the duplicate-registration
error `ErrDescAlreadyExists` is ignored, and how assignment into the
`usedCacheFiles` map behaves. -/
def addWatch (ws : List Path) (q : Path) : List Path :=
  if q ∈ ws then ws else ws ++ [q]

/-- Event loop of `watchCache` (`for { select ... } }`): every event delivered
on the watcher channel has its literal `event.Path` recorded in `usedFiles`;
the loop returns the accumulated set when the context is cancelled.  The input
list is the sequence of event paths delivered before cancellation. -/
def watchLoop (events : List Path) : List Path :=
  events.foldl addWatch []

/-- Watch-installation walk of `watchCache` over a module cache: the
`filepath.WalkDir` callback asks `dependencyDir` at every entry, registers a
watch on the returned dependency dir (tolerating duplicates), and returns
`nil`, so the walk always descends into directories — including recognized
dependency dirs. -/
def watchWalkChildren (p : Path) : List Entry → List Path → List Path
  | [], ws => ws
  | Entry.file n :: rest, ws =>
    let ws1 := match dependencyDir (p ++ [n]) false with
      | some u => addWatch ws u
      | none => ws
    watchWalkChildren p rest ws1
  | Entry.dir n cs :: rest, ws =>
    let ws1 := match dependencyDir (p ++ [n]) true with
      | some u => addWatch ws u
      | none => ws
    watchWalkChildren p rest (watchWalkChildren (p ++ [n]) cs ws1)

/-- Whole watch-installation walk for the module cache, starting at the cache
root (the root entry itself is also classified, as `WalkDir` visits it). -/
def watchCacheWalk (root : Path) (e : Entry) : List Path :=
  match e with
  | Entry.file _ =>
    (match dependencyDir root false with
     | some u => [u]
     | none => [])
  | Entry.dir _ cs =>
    let ws0 := match dependencyDir root true with
      | some u => [u]
      | none => []
    watchWalkChildren root cs ws0

/-- Specification-side notion of the dependency unit owning a path: the
shortest prefix of the path whose last component is a unit directory name.
Used to state the spec's "map the event path to its owning unit". -/
def unitOwner : Path → Option Path :=
  go []
where
  /-- Scan components left to right, extending the prefix until a unit
  directory name is found. -/
  go (pre : Path) : Path → Option Path
    | [] => none
    | n :: rest =>
      if isUnitDirName n then some (pre ++ [n]) else go (pre ++ [n]) rest

mutual
/-- Preorder collection of every dependency dir that `dependencyDir`
identifies anywhere in the tree (with repetitions); used to characterize what
the watch walk registers. -/
def collectUnits (p : Path) : Entry → List Path
  | Entry.file _ =>
    (match dependencyDir p false with
     | some u => [u]
     | none => [])
  | Entry.dir _ cs =>
    (match dependencyDir p true with
     | some u => [u]
     | none => []) ++ collectUnitsList p cs

/-- Collection over an ordered list of children. -/
def collectUnitsList (p : Path) : List Entry → List Path
  | [] => []
  | Entry.file n :: rest => collectUnits (p ++ [n]) (Entry.file n) ++ collectUnitsList p rest
  | Entry.dir n cs :: rest => collectUnits (p ++ [n]) (Entry.dir n cs) ++ collectUnitsList p rest
end

/-! ### Prune phase (`pruneCaches` in `main.go`) -/

/-- Result of walking the children of one directory during the module-cache
prune: the children that survive on disk, the paths actually removed (in
removal order), the number of times the deleted counter was incremented, and
whether the directory being walked was itself deleted from inside (which
happens when it directly contains a `go.mod` file and is not in the usage
set). -/
structure ModOut where
  surviving : List Entry
  deleted : List Path
  tally : Nat
  killed : Bool
deriving Repr

/-- Tally contributions of walk callback invocations on entries whose paths no
longer exist because an enclosing directory was already deleted.  `WalkDir`
still visits them from the directory listing read before the deletion; the
callback classifies them, `os.RemoveAll` on the vanished path returns `nil`,
and the counter is incremented — twice for a directory entry, because reading
the deleted directory fails and triggers the callback a second time. -/
def staleTally (usage : List Path) (p : Path) : List Entry → Nat
  | [] => 0
  | Entry.file n :: rest =>
    (match dependencyDir (p ++ [n]) false with
     | some u => if u ∈ usage then 0 else 1
     | none => 0) + staleTally usage p rest
  | Entry.dir n _ :: rest =>
    (match dependencyDir (p ++ [n]) true with
     | some u => if u ∈ usage then 0 else 2
     | none => 0) + staleTally usage p rest

/-- Module-cache prune walk over the children of the directory at `p`, as
`filepath.WalkDir` runs the callback of `pruneCaches`:

- a file named `go.mod` whose parent is not in the usage set causes
  `os.RemoveAll` of the parent: everything under `p` is gone, the remaining
  pre-read siblings get stale visits;
- a directory recognized by `dependencyDir` is skipped (but still descended
  into!) when its path is in the usage set, and otherwise removed, with the
  counter incremented twice (once at the visit, once at the extra callback
  invocation Go performs when reading the freshly deleted directory fails
  with a not-exist error that the callback ignores);
- any other entry is skipped; directories are descended into. -/
def pruneModChildren (usage : List Path) (p : Path) : List Entry → ModOut
  | [] => ⟨[], [], 0, false⟩
  | Entry.file n :: rest =>
    (match dependencyDir (p ++ [n]) false with
     | some u =>
       if u ∈ usage then
         let r := pruneModChildren usage p rest
         ⟨Entry.file n :: r.surviving, r.deleted, r.tally, r.killed⟩
       else
         ⟨[], [u], 1 + staleTally usage p rest, true⟩
     | none =>
       let r := pruneModChildren usage p rest
       ⟨Entry.file n :: r.surviving, r.deleted, r.tally, r.killed⟩)
  | Entry.dir n cs :: rest =>
    (match dependencyDir (p ++ [n]) true with
     | some u =>
       if u ∈ usage then
         let inner := pruneModChildren usage (p ++ [n]) cs
         let r := pruneModChildren usage p rest
         if inner.killed then
           ⟨r.surviving, inner.deleted ++ r.deleted, inner.tally + r.tally, r.killed⟩
         else
           ⟨Entry.dir n inner.surviving :: r.surviving, inner.deleted ++ r.deleted,
             inner.tally + r.tally, r.killed⟩
       else
         let r := pruneModChildren usage p rest
         ⟨r.surviving, u :: r.deleted, 2 + r.tally, r.killed⟩
     | none =>
       let inner := pruneModChildren usage (p ++ [n]) cs
       let r := pruneModChildren usage p rest
       if inner.killed then
         ⟨r.surviving, inner.deleted ++ r.deleted, inner.tally + r.tally, r.killed⟩
       else
         ⟨Entry.dir n inner.surviving :: r.surviving, inner.deleted ++ r.deleted,
           inner.tally + r.tally, r.killed⟩)

/-- One whole module-cache prune pass: the root entry is visited first and
skipped by the `path == root` guard, then its children are walked.  The
result is the surviving tree (`none` when the walk deleted the root itself
via a `go.mod` file sitting directly in the root), the removed paths, and the
final deleted-directories tally. -/
def pruneModCacheRun (usage : List Path) (root : Path) (e : Entry) :
    Option Entry × List Path × Nat :=
  match e with
  | Entry.file n => (some (Entry.file n), [], 0)
  | Entry.dir n cs =>
    let r := pruneModChildren usage root cs
    if r.killed then (none, r.deleted, r.tally)
    else (some (Entry.dir n r.surviving), r.deleted, r.tally)

/-- Second module-cache pass over the outcome of a first pass (the cache may
have been deleted entirely). -/
def pruneModCacheAgain (usage : List Path) (root : Path) :
    Option Entry → Option Entry × List Path × Nat
  | none => (none, [], 0)
  | some e => pruneModCacheRun usage root e

/-- Result of walking the children of one directory during the build-cache
prune: surviving children, deleted file paths, and the deleted-files tally. -/
structure BuildOut where
  surviving : List Entry
  deleted : List Path
  tally : Nat
deriving Repr

/-- Build-cache prune walk over the children of the directory at `p`: files
absent from the usage set are removed and counted, files present are kept,
directories are always descended into and never removed. -/
def pruneBuildChildren (usage : List Path) (p : Path) : List Entry → BuildOut
  | [] => ⟨[], [], 0⟩
  | Entry.file n :: rest =>
    let r := pruneBuildChildren usage p rest
    if (p ++ [n]) ∈ usage then
      ⟨Entry.file n :: r.surviving, r.deleted, r.tally⟩
    else
      ⟨r.surviving, (p ++ [n]) :: r.deleted, 1 + r.tally⟩
  | Entry.dir n cs :: rest =>
    let inner := pruneBuildChildren usage (p ++ [n]) cs
    let r := pruneBuildChildren usage p rest
    ⟨Entry.dir n inner.surviving :: r.surviving, inner.deleted ++ r.deleted,
      inner.tally + r.tally⟩

/-- One whole build-cache prune pass: the root is visited and skipped by the
`path == root` guard (so a root entry is never deleted), then the children
are walked. -/
def pruneBuildCacheRun (usage : List Path) (root : Path) (e : Entry) :
    Entry × List Path × Nat :=
  match e with
  | Entry.file n => (Entry.file n, [], 0)
  | Entry.dir n cs =>
    let r := pruneBuildChildren usage root cs
    (Entry.dir n r.surviving, r.deleted, r.tally)

/-- Disposition of the error check at the top of the prune walk callback,
`if err != nil && (isModCache && !errors.Is(err, os.ErrNotExist))`: the first
component says whether a warning is reported, the second whether the entry is
skipped (callback returns early); in either case the callback returns `nil`
so the walk continues. -/
def walkErrCheck (isModCache : Bool) (hasErr : Bool) (isNotExist : Bool) : Bool × Bool :=
  if hasErr && (isModCache && !isNotExist) then (true, true) else (false, false)

/-! ### Orchestration (`watchCaches`, `mainErr`, `mainRetCode` in `main.go`) -/

/-- Outcome of one watch session: either a fatal session error or the
accumulated usage set. -/
abbrev SessionResult := Except Unit (List Path)

/-- Combination logic of `watchCaches`: each configured cache runs one watch
session; afterwards the two error slots are joined, and if the join is
non-nil the function returns `nil` for both usage sets together with the
error.  A cache that is not configured (empty path) contributes an empty set
and no error. -/
def watchCachesCombine (modEnabled buildEnabled : Bool)
    (modRes buildRes : SessionResult) :
    Except Unit (List Path × List Path) :=
  let modOut := if modEnabled then modRes else Except.ok []
  let buildOut := if buildEnabled then buildRes else Except.ok []
  match modOut, buildOut with
  | Except.ok mf, Except.ok bf => Except.ok (mf, bf)
  | _, _ => Except.error ()

/-- The run outcome after the watch phase in `mainErr`/`mainRetCode`: the
process exit code and whether `pruneCaches` was invoked.  A watch error is
returned upward and reported, producing exit code 1; an already-cancelled
parent context produces `errJustExit(2)` without pruning; empty usage sets
for both caches produce `errJustExit(2)` without pruning; otherwise the
caches are pruned and the process exits 0. -/
def runOutcome (watchRes : Except Unit (List Path × List Path))
    (parentCancelled : Bool) : Nat × Bool :=
  match watchRes with
  | Except.error _ => (1, false)
  | Except.ok (modFiles, buildFiles) =>
    if parentCancelled then (2, false)
    else if modFiles.length = 0 ∧ buildFiles.length = 0 then (2, false)
    else (0, true)

/-! ### Specification-side definitions

These follow the spec's words rather than the code; the theorems compare the
embedded code against them. -/

mutual
/-- An entry that can never trigger a module-cache deletion anywhere inside
it: not a unit-named directory, no `go.mod` file, recursively. -/
def noTrigger : Entry → Bool
  | Entry.file n => decide (n ≠ "go.mod")
  | Entry.dir n cs => !isUnitDirName n && noTriggerList cs

/-- `noTrigger` lifted to an ordered list of children. -/
def noTriggerList : List Entry → Bool
  | [] => true
  | c :: rest => noTrigger c && noTriggerList rest
end

/-- Children of a unit root that match the spec's data-model invariant that
units are the atomic granularity: files of any name may sit directly at the
unit root (its own `go.mod` maps back to the unit), while subdirectories must
not contain anything that classifies as a unit. -/
def cleanUnitChildren : List Entry → Bool
  | [] => true
  | Entry.file _ :: rest => cleanUnitChildren rest
  | Entry.dir n cs :: rest =>
    !isUnitDirName n && noTriggerList cs && cleanUnitChildren rest

mutual
/-- Well-formed module-cache entry at a non-unit position: no stray `go.mod`
files outside units, and every unit-named directory has a clean interior. -/
def wfModEntry : Entry → Bool
  | Entry.file n => decide (n ≠ "go.mod")
  | Entry.dir n cs => if isUnitDirName n then cleanUnitChildren cs else wfModList cs

/-- `wfModEntry` lifted to an ordered list of children. -/
def wfModList : List Entry → Bool
  | [] => true
  | c :: rest => wfModEntry c && wfModList rest
end

/-- Spec-side expected survivors of a module-cache prune over well-formed
children: units in the usage set are kept whole, units outside it vanish,
everything else is kept and recursed into. -/
def modSurvivorsSpec (usage : List Path) (p : Path) : List Entry → List Entry
  | [] => []
  | Entry.file n :: rest => Entry.file n :: modSurvivorsSpec usage p rest
  | Entry.dir n cs :: rest =>
    if isUnitDirName n then
      if (p ++ [n]) ∈ usage then Entry.dir n cs :: modSurvivorsSpec usage p rest
      else modSurvivorsSpec usage p rest
    else Entry.dir n (modSurvivorsSpec usage (p ++ [n]) cs) :: modSurvivorsSpec usage p rest

/-- Spec-side expected deletions of a module-cache prune over well-formed
children: exactly the canonical paths of units absent from the usage set, in
walk order. -/
def modDeletedSpec (usage : List Path) (p : Path) : List Entry → List Path
  | [] => []
  | Entry.file _ :: rest => modDeletedSpec usage p rest
  | Entry.dir n cs :: rest =>
    if isUnitDirName n then
      if (p ++ [n]) ∈ usage then modDeletedSpec usage p rest
      else (p ++ [n]) :: modDeletedSpec usage p rest
    else modDeletedSpec usage (p ++ [n]) cs ++ modDeletedSpec usage p rest

/-- Spec-side expected survivors of a build-cache prune: every directory is
kept (and recursed into), a file is kept exactly when its path is in the
usage set. -/
def buildSurvivorsSpec (usage : List Path) (p : Path) : List Entry → List Entry
  | [] => []
  | Entry.file n :: rest =>
    if (p ++ [n]) ∈ usage then Entry.file n :: buildSurvivorsSpec usage p rest
    else buildSurvivorsSpec usage p rest
  | Entry.dir n cs :: rest =>
    Entry.dir n (buildSurvivorsSpec usage (p ++ [n]) cs) :: buildSurvivorsSpec usage p rest

/-- Spec-side expected deletions of a build-cache prune: exactly the paths of
files absent from the usage set, in walk order. -/
def buildDeletedSpec (usage : List Path) (p : Path) : List Entry → List Path
  | [] => []
  | Entry.file n :: rest =>
    if (p ++ [n]) ∈ usage then buildDeletedSpec usage p rest
    else (p ++ [n]) :: buildDeletedSpec usage p rest
  | Entry.dir n cs :: rest =>
    buildDeletedSpec usage (p ++ [n]) cs ++ buildDeletedSpec usage p rest

/-! ### Basic lemmas -/

theorem lastName_snoc (p : Path) (n : String) : lastName (p ++ [n]) = n := by
  induction p with
  | nil => rfl
  | cons a p' ih =>
    cases p' with
    | nil => rfl
    | cons b p'' => simpa [lastName] using ih

theorem dependencyDir_snoc_file (p : Path) (n : String) :
    dependencyDir (p ++ [n]) false = if n = "go.mod" then some p else none := by
  simp [dependencyDir, lastName_snoc, List.dropLast_concat]

theorem dependencyDir_snoc_dir (p : Path) (n : String) :
    dependencyDir (p ++ [n]) true = if isUnitDirName n then some (p ++ [n]) else none := by
  simp [dependencyDir, lastName_snoc]

theorem addWatch_mem (ws : List Path) (q q' : Path) :
    q' ∈ addWatch ws q ↔ q' ∈ ws ∨ q' = q := by
  unfold addWatch
  by_cases h : q ∈ ws
  · rw [if_pos h]
    constructor
    · exact Or.inl
    · rintro (hq | rfl)
      · exact hq
      · exact h
  · rw [if_neg h]
    simp [List.mem_append]

theorem addWatch_nodup (ws : List Path) (q : Path) (h : ws.Nodup) :
    (addWatch ws q).Nodup := by
  unfold addWatch
  by_cases hq : q ∈ ws
  · rwa [if_pos hq]
  · rw [if_neg hq, List.nodup_append]
    refine ⟨h, List.nodup_singleton q, ?_⟩
    intro a ha hb
    rw [List.mem_singleton] at hb
    subst hb
    exact hq ha

theorem foldl_addWatch_mem (l : List Path) :
    ∀ (ws : List Path) (q' : Path), q' ∈ l.foldl addWatch ws ↔ q' ∈ ws ∨ q' ∈ l := by
  induction l with
  | nil => simp
  | cons a l' ih =>
    intro ws q'
    simp only [List.foldl_cons, ih, addWatch_mem, List.mem_cons]
    tauto

theorem any_of_countCh (c : Char) (l : List Char) (h : 1 ≤ countCh c l) :
    l.any (fun x => x = c) = true := by
  rw [List.any_eq_true]
  have hpos : 0 < l.countP (fun x => decide (x = c)) := h
  obtain ⟨a, ha, hp⟩ := List.countP_pos_iff.mp hpos
  exact ⟨a, ha, hp⟩

theorem countCh_cutAfterAt (l : List Char) (h : 1 ≤ countCh '@' l) :
    countCh '@' (cutAfterAt l) = countCh '@' l - 1 := by
  induction l with
  | nil => simp [countCh] at h
  | cons a cs ih =>
    by_cases hc : a = '@'
    · subst hc
      simp [cutAfterAt, countCh, List.countP_cons]
    · rw [countCh, List.countP_cons] at h
      simp only [hc, decide_eq_true_eq, if_neg, decide_eq_false hc, Nat.add_zero] at h
      rw [cutAfterAt, if_neg hc, ih h, countCh, countCh, List.countP_cons]
      simp [hc]

theorem foldl_addWatch_nodup (l : List Path) :
    ∀ ws : List Path, ws.Nodup → (l.foldl addWatch ws).Nodup := by
  induction l with
  | nil => exact fun _ h => h
  | cons a l' ih =>
    intro ws h
    exact ih _ (addWatch_nodup ws a h)

/-! ### The module-cache prune walk on well-formed caches -/

theorem prune_noTrigger (usage : List Path) :
    ∀ (cs : List Entry) (p : Path), noTriggerList cs = true →
      pruneModChildren usage p cs = ⟨cs, [], 0, false⟩
  | [], _, _ => by simp [pruneModChildren]
  | Entry.file n :: rest, p, h => by
    rw [noTriggerList, Bool.and_eq_true, noTrigger, decide_eq_true_eq] at h
    have hr := prune_noTrigger usage rest p h.2
    simp [pruneModChildren, dependencyDir_snoc_file, h.1, hr]
  | Entry.dir n cs' :: rest, p, h => by
    rw [noTriggerList, Bool.and_eq_true, noTrigger, Bool.and_eq_true,
      Bool.not_eq_true'] at h
    have hin := prune_noTrigger usage cs' (p ++ [n]) h.1.2
    have hr := prune_noTrigger usage rest p h.2
    simp [pruneModChildren, dependencyDir_snoc_dir, h.1.1, hin, hr]

theorem prune_cleanUnit (usage : List Path) :
    ∀ (cs : List Entry) (q : Path), q ∈ usage → cleanUnitChildren cs = true →
      pruneModChildren usage q cs = ⟨cs, [], 0, false⟩
  | [], _, _, _ => by simp [pruneModChildren]
  | Entry.file n :: rest, q, hq, h => by
    rw [cleanUnitChildren] at h
    have hr := prune_cleanUnit usage rest q hq h
    by_cases hn : n = "go.mod"
    · simp [pruneModChildren, dependencyDir_snoc_file, hn, hq, hr]
    · simp [pruneModChildren, dependencyDir_snoc_file, hn, hr]
  | Entry.dir n cs' :: rest, q, hq, h => by
    rw [cleanUnitChildren, Bool.and_eq_true, Bool.and_eq_true, Bool.not_eq_true'] at h
    have hin := prune_noTrigger usage cs' (q ++ [n]) h.1.2
    have hr := prune_cleanUnit usage rest q hq h.2
    simp [pruneModChildren, dependencyDir_snoc_dir, h.1.1, hin, hr]

theorem prune_wf (usage : List Path) :
    ∀ (cs : List Entry) (p : Path), wfModList cs = true →
      pruneModChildren usage p cs =
        ⟨modSurvivorsSpec usage p cs, modDeletedSpec usage p cs,
          2 * (modDeletedSpec usage p cs).length, false⟩
  | [], _, _ => by simp [pruneModChildren, modSurvivorsSpec, modDeletedSpec]
  | Entry.file n :: rest, p, h => by
    rw [wfModList, Bool.and_eq_true, wfModEntry, decide_eq_true_eq] at h
    have hr := prune_wf usage rest p h.2
    simp [pruneModChildren, dependencyDir_snoc_file, h.1, hr, modSurvivorsSpec,
      modDeletedSpec]
  | Entry.dir n cs' :: rest, p, h => by
    rw [wfModList, Bool.and_eq_true, wfModEntry] at h
    have hr := prune_wf usage rest p h.2
    by_cases hu : isUnitDirName n
    · rw [if_pos hu] at h
      by_cases hmem : (p ++ [n]) ∈ usage
      · have hin := prune_cleanUnit usage cs' (p ++ [n]) hmem h.1
        simp [pruneModChildren, dependencyDir_snoc_dir, hu, hmem, hin, hr,
          modSurvivorsSpec, modDeletedSpec]
      · simp only [pruneModChildren, dependencyDir_snoc_dir, if_pos hu, hr,
          if_neg hmem, modSurvivorsSpec, modDeletedSpec, ModOut.mk.injEq]
        refine ⟨trivial, trivial, by simp [List.length_cons]; omega, trivial⟩
    · rw [if_neg hu] at h
      have hin := prune_wf usage cs' (p ++ [n]) h.1
      simp only [pruneModChildren, dependencyDir_snoc_dir, if_neg hu, hin, hr,
        modSurvivorsSpec, modDeletedSpec]
      simp [List.length_append, Nat.mul_add]

/-! ### Idempotence of the prune walks -/

theorem prune_killed_of_mem (usage : List Path) :
    ∀ (cs : List Entry) (p : Path), p ∈ usage →
      (pruneModChildren usage p cs).killed = false
  | [], _, _ => by simp [pruneModChildren]
  | Entry.file n :: rest, p, hp => by
    have hr := prune_killed_of_mem usage rest p hp
    by_cases hn : n = "go.mod"
    · simp [pruneModChildren, dependencyDir_snoc_file, hn, hp, hr]
    · simp [pruneModChildren, dependencyDir_snoc_file, hn, hr]
  | Entry.dir n cs' :: rest, p, hp => by
    have hr := prune_killed_of_mem usage rest p hp
    by_cases hu : isUnitDirName n
    · by_cases hmem : (p ++ [n]) ∈ usage
      · by_cases hk : (pruneModChildren usage (p ++ [n]) cs').killed
        · simp [pruneModChildren, dependencyDir_snoc_dir, hu, hmem, hk, hr]
        · simp [pruneModChildren, dependencyDir_snoc_dir, hu, hmem, hk, hr]
      · simp [pruneModChildren, dependencyDir_snoc_dir, hu, hmem, hr]
    · by_cases hk : (pruneModChildren usage (p ++ [n]) cs').killed
      · simp [pruneModChildren, dependencyDir_snoc_dir, hu, hk, hr]
      · simp [pruneModChildren, dependencyDir_snoc_dir, hu, hk, hr]

theorem prune_idem (usage : List Path) :
    ∀ (cs : List Entry) (p : Path),
      pruneModChildren usage p (pruneModChildren usage p cs).surviving =
        ⟨(pruneModChildren usage p cs).surviving, [], 0, false⟩
  | [], _ => by simp [pruneModChildren]
  | Entry.file n :: rest, p => by
    have hr := prune_idem usage rest p
    by_cases hn : n = "go.mod"
    · by_cases hmem : p ∈ usage
      · simp [pruneModChildren, dependencyDir_snoc_file, hn, hmem, hr]
      · simp [pruneModChildren, dependencyDir_snoc_file, hn, hmem]
    · simp [pruneModChildren, dependencyDir_snoc_file, hn, hr]
  | Entry.dir n cs' :: rest, p => by
    have hr := prune_idem usage rest p
    have hin := prune_idem usage cs' (p ++ [n])
    by_cases hu : isUnitDirName n
    · by_cases hmem : (p ++ [n]) ∈ usage
      · have hk := prune_killed_of_mem usage cs' (p ++ [n]) hmem
        have hk2 : (pruneModChildren usage (p ++ [n])
            (pruneModChildren usage (p ++ [n]) cs').surviving).killed = false := by
          rw [hin]
        simp [pruneModChildren, dependencyDir_snoc_dir, hu, hmem, hk, hin, hr]
      · simp [pruneModChildren, dependencyDir_snoc_dir, hu, hmem, hr]
    · by_cases hk : (pruneModChildren usage (p ++ [n]) cs').killed
      · simp [pruneModChildren, dependencyDir_snoc_dir, hu, hk, hr]
      · have hk2 : (pruneModChildren usage (p ++ [n])
            (pruneModChildren usage (p ++ [n]) cs').surviving).killed = false := by
          rw [hin]
        simp [pruneModChildren, dependencyDir_snoc_dir, hu, hk, hin, hr, hk2]

/-! ### The build-cache prune walk -/

theorem pruneBuild_spec (usage : List Path) :
    ∀ (cs : List Entry) (p : Path),
      pruneBuildChildren usage p cs =
        ⟨buildSurvivorsSpec usage p cs, buildDeletedSpec usage p cs,
          (buildDeletedSpec usage p cs).length⟩
  | [], _ => by simp [pruneBuildChildren, buildSurvivorsSpec, buildDeletedSpec]
  | Entry.file n :: rest, p => by
    have hr := pruneBuild_spec usage rest p
    by_cases hmem : (p ++ [n]) ∈ usage
    · simp [pruneBuildChildren, hmem, hr, buildSurvivorsSpec, buildDeletedSpec]
    · simp [pruneBuildChildren, hmem, hr, buildSurvivorsSpec, buildDeletedSpec,
        Nat.add_comm]
  | Entry.dir n cs' :: rest, p => by
    have hr := pruneBuild_spec usage rest p
    have hin := pruneBuild_spec usage cs' (p ++ [n])
    simp [pruneBuildChildren, hr, hin, buildSurvivorsSpec, buildDeletedSpec,
      List.length_append]

theorem pruneBuild_idem (usage : List Path) :
    ∀ (cs : List Entry) (p : Path),
      pruneBuildChildren usage p (pruneBuildChildren usage p cs).surviving =
        ⟨(pruneBuildChildren usage p cs).surviving, [], 0⟩
  | [], _ => by simp [pruneBuildChildren]
  | Entry.file n :: rest, p => by
    have hr := pruneBuild_idem usage rest p
    by_cases hmem : (p ++ [n]) ∈ usage
    · simp [pruneBuildChildren, hmem, hr]
    · simp [pruneBuildChildren, hmem, hr]
  | Entry.dir n cs' :: rest, p => by
    have hr := pruneBuild_idem usage rest p
    have hin := pruneBuild_idem usage cs' (p ++ [n])
    simp [pruneBuildChildren, hr, hin]

theorem pruneBuild_append (usage : List Path) :
    ∀ (cs1 cs2 : List Entry) (p : Path),
      pruneBuildChildren usage p (cs1 ++ cs2) =
        ⟨(pruneBuildChildren usage p cs1).surviving ++ (pruneBuildChildren usage p cs2).surviving,
          (pruneBuildChildren usage p cs1).deleted ++ (pruneBuildChildren usage p cs2).deleted,
          (pruneBuildChildren usage p cs1).tally + (pruneBuildChildren usage p cs2).tally⟩
  | [], cs2, p => by simp [pruneBuildChildren]
  | Entry.file n :: rest, cs2, p => by
    have hr := pruneBuild_append usage rest cs2 p
    by_cases hmem : (p ++ [n]) ∈ usage
    · simp [pruneBuildChildren, hmem, hr, Nat.add_assoc]
    · simp [pruneBuildChildren, hmem, hr, Nat.add_assoc]
  | Entry.dir n cs' :: rest, cs2, p => by
    have hr := pruneBuild_append usage rest cs2 p
    simp [pruneBuildChildren, hr, Nat.add_assoc]

/-! ### The watch-installation walk -/

theorem watchWalkChildren_eq (p : Path) :
    ∀ (cs : List Entry) (ws : List Path),
      watchWalkChildren p cs ws = (collectUnitsList p cs).foldl addWatch ws
  | [], _ => by simp [watchWalkChildren, collectUnitsList]
  | Entry.file n :: rest, ws => by
    have hr := watchWalkChildren_eq p rest
    cases hd : dependencyDir (p ++ [n]) false with
    | none => simp [watchWalkChildren, collectUnitsList, collectUnits, hd, hr]
    | some u => simp [watchWalkChildren, collectUnitsList, collectUnits, hd, hr]
  | Entry.dir n cs' :: rest, ws => by
    have hr := watchWalkChildren_eq p rest
    have hin := watchWalkChildren_eq (p ++ [n]) cs'
    cases hd : dependencyDir (p ++ [n]) true with
    | none =>
      simp [watchWalkChildren, collectUnitsList, collectUnits, hd, hr, hin,
        List.foldl_append]
    | some u =>
      simp [watchWalkChildren, collectUnitsList, collectUnits, hd, hr, hin,
        List.foldl_append]

theorem watchCacheWalk_eq (root : Path) (e : Entry) :
    watchCacheWalk root e = (collectUnits root e).foldl addWatch [] := by
  cases e with
  | file n =>
    cases hd : dependencyDir root false with
    | none => simp [watchCacheWalk, collectUnits, hd]
    | some u => simp [watchCacheWalk, collectUnits, hd, addWatch]
  | dir n cs =>
    cases hd : dependencyDir root true with
    | none => simp [watchCacheWalk, collectUnits, hd, watchWalkChildren_eq]
    | some u =>
      simp [watchCacheWalk, collectUnits, hd, watchWalkChildren_eq,
        List.foldl_append, addWatch]

/-! ### Concrete caches used in counterexamples and witnesses -/

/-- A usage set containing only the unit `mod/a@v1.0.0`. -/
def usageA : List Path := [["mod", "a@v1.0.0"]]

/-- A module cache whose only unit (present in `usageA`) contains a nested
directory holding a `go.mod` file. -/
def nestedUnitCache : Entry :=
  Entry.dir "mod"
    [Entry.dir "a@v1.0.0" [Entry.file "go.mod", Entry.dir "sub" [Entry.file "go.mod"]]]

/-- A module cache with a `go.mod` file sitting directly in the cache root. -/
def rootGoModCache : Entry :=
  Entry.dir "mod" [Entry.file "go.mod", Entry.dir "a@v1.0.0" [Entry.file "x.go"]]

/-- A module cache with one dependency version whose subtree contains a
nested `go.mod` file. -/
def c3Cache : Entry :=
  Entry.dir "mod"
    [Entry.dir "a@v1.0.0" [Entry.dir "sub" [Entry.file "go.mod"], Entry.file "go.mod"]]

/-- Five dependency units D1..D5 as directory entries of a module cache. -/
def modUnits5 : List Entry :=
  [Entry.dir "d1@v1.0.0" [Entry.file "go.mod", Entry.file "a.go"],
   Entry.dir "d2@v1.0.0" [Entry.file "go.mod"],
   Entry.dir "d3@v1.0.0" [],
   Entry.dir "d4@v1.0.0" [Entry.dir "sub" [Entry.file "b.go"]],
   Entry.dir "d5@v1.0.0" [Entry.file "go.mod"]]

/-- A usage set containing units D2 and D4 of `modUnits5`. -/
def modUsage24 : List Path := [["mod", "d2@v1.0.0"], ["mod", "d4@v1.0.0"]]

/-! ### Claims -/

/-- C1 (counterexample): the watch-session event loop does not map event paths
to their owning dependency unit — it records the literal `event.Path`.  Two
distinct module-cache paths owned by the same unit (`N = 2`, `M = 1`) yield a
usage set with 2 entries, where the claim demands exactly `M = 1`. -/
theorem watch_usage_records_literal_paths_counterexample :
    unitOwner ["mod", "a@v1.0.0", "go.mod"] = some ["mod", "a@v1.0.0"] ∧
    unitOwner ["mod", "a@v1.0.0", "x.go"] = some ["mod", "a@v1.0.0"] ∧
    watchLoop [["mod", "a@v1.0.0", "go.mod"], ["mod", "a@v1.0.0", "x.go"]] =
      [["mod", "a@v1.0.0", "go.mod"], ["mod", "a@v1.0.0", "x.go"]] ∧
    (watchLoop [["mod", "a@v1.0.0", "go.mod"], ["mod", "a@v1.0.0", "x.go"]]).length ≠ 1 := by
  decide

/-- C1 (amended): the event loop of `watchCache` records the literal path of
every received event, for the module cache just as for the build cache; the
resulting usage set contains exactly the distinct observed event paths — `N`
entries for `N` distinct paths, with no unit mapping performed. -/
theorem watch_usage_set_is_distinct_event_paths (events : List Path) :
    (∀ q, q ∈ watchLoop events ↔ q ∈ events) ∧
    (watchLoop events).Nodup ∧
    (watchLoop events).length = events.toFinset.card := by
  have hmem : ∀ q, q ∈ watchLoop events ↔ q ∈ events := by
    intro q
    rw [watchLoop, foldl_addWatch_mem]
    simp
  have hnd : (watchLoop events).Nodup := foldl_addWatch_nodup events [] List.nodup_nil
  refine ⟨hmem, hnd, ?_⟩
  have h1 : (watchLoop events).toFinset = events.toFinset := by
    ext q
    simp only [List.mem_toFinset]
    exact hmem q
  rw [← List.toFinset_card_of_nodup hnd, h1]

/-- C2 (counterexample): the prune walk does descend into units present in the
usage set, deleting nested entries that classify as units (here
`mod/a@v1.0.0/sub`, deleted although its enclosing unit is in the usage set);
and a `go.mod` file directly in the cache root makes the walk delete the root
itself, so the root is a deletion candidate and even used units are lost. -/
theorem prune_mod_claim_counterexample :
    ((pruneModCacheRun usageA ["mod"] nestedUnitCache).2.1 = [["mod", "a@v1.0.0", "sub"]] ∧
     ["mod", "a@v1.0.0"] ∈ usageA ∧
     (pruneModCacheRun usageA ["mod"] nestedUnitCache).2.1 ≠ []) ∧
    ((pruneModCacheRun usageA ["mod"] rootGoModCache).1 = none ∧
     (pruneModCacheRun usageA ["mod"] rootGoModCache).2.1 = [["mod"]]) := by
  have h1 : isUnitDirName "a@v1.0.0" = true := by decide
  have h2 : isUnitDirName "sub" = false := by decide
  have h3 : isUnitDirName "go.mod" = false := by decide
  have h4 : isUnitDirName "x.go" = false := by decide
  refine ⟨⟨?_, by decide, ?_⟩, ?_, ?_⟩ <;>
    simp [pruneModCacheRun, pruneModChildren, staleTally, dependencyDir, lastName,
      nestedUnitCache, rootGoModCache, usageA, h1, h2, h3, h4]

/-- C2 (amended): on a well-formed module cache — no `go.mod` file outside
units (in particular none directly in the cache root) and no entry inside a
unit that itself classifies as a unit — one prune pass deletes exactly the
dependency units whose canonical path is absent from the usage set, retains
every unit whose path is present (the walk does descend into retained units,
harmlessly so under well-formedness), never deletes the cache root, and
increments the reported tally twice per deleted unit (the deleted directory
is revisited once more when reading it back fails). -/
theorem prune_mod_wellformed_deletes_exactly_unused_units (usage : List Path)
    (root : Path) (rn : String) (cs : List Entry) (h : wfModList cs = true) :
    pruneModCacheRun usage root (Entry.dir rn cs) =
      (some (Entry.dir rn (modSurvivorsSpec usage root cs)),
       modDeletedSpec usage root cs, 2 * (modDeletedSpec usage root cs).length) := by
  have hp := prune_wf usage cs root h
  simp [pruneModCacheRun, hp]

/-- C2 (witness): the spec's own scenario — units D1..D5 with usage set
{D2, D4} — is well formed, and one prune pass deletes exactly D1, D3, D5. -/
theorem prune_mod_wellformed_witness :
    wfModList modUnits5 = true ∧
    modDeletedSpec modUsage24 ["mod"] modUnits5 =
      [["mod", "d1@v1.0.0"], ["mod", "d3@v1.0.0"], ["mod", "d5@v1.0.0"]] ∧
    pruneModCacheRun modUsage24 ["mod"] (Entry.dir "mod" modUnits5) =
      (some (Entry.dir "mod" (modSurvivorsSpec modUsage24 ["mod"] modUnits5)),
       modDeletedSpec modUsage24 ["mod"] modUnits5,
       2 * (modDeletedSpec modUsage24 ["mod"] modUnits5).length) := by
  have hu1 : isUnitDirName "d1@v1.0.0" = true := by decide
  have hu2 : isUnitDirName "d2@v1.0.0" = true := by decide
  have hu3 : isUnitDirName "d3@v1.0.0" = true := by decide
  have hu4 : isUnitDirName "d4@v1.0.0" = true := by decide
  have hu5 : isUnitDirName "d5@v1.0.0" = true := by decide
  have hs : isUnitDirName "sub" = false := by decide
  have hwf : wfModList modUnits5 = true := by
    simp [modUnits5, wfModList, wfModEntry, cleanUnitChildren, noTriggerList, noTrigger,
      hu1, hu2, hu3, hu4, hu5, hs]
  refine ⟨hwf, ?_, prune_mod_wellformed_deletes_exactly_unused_units modUsage24 ["mod"] "mod" modUnits5 hwf⟩
  simp [modDeletedSpec, modUnits5, modUsage24, hu1, hu2, hu3, hu4, hu5]

/-- C3 (counterexample): after identifying `mod/a@v1.0.0` as a unit, the
watch-installation walk keeps descending into it and registers a second watch
for `mod/a@v1.0.0/sub` (whose nested `go.mod` classifies it as a unit), so
the watch count is not bounded by one per dependency version. -/
theorem watch_walk_descends_counterexample :
    watchCacheWalk ["mod"] c3Cache = [["mod", "a@v1.0.0"], ["mod", "a@v1.0.0", "sub"]] ∧
    watchCacheWalk ["mod"] c3Cache ≠ [["mod", "a@v1.0.0"]] ∧
    (watchCacheWalk ["mod"] c3Cache).length = 2 := by
  have h1 : isUnitDirName "a@v1.0.0" = true := by decide
  have h2 : isUnitDirName "sub" = false := by decide
  have h5 : isUnitDirName "mod" = false := by decide
  have he : watchCacheWalk ["mod"] c3Cache =
      [["mod", "a@v1.0.0"], ["mod", "a@v1.0.0", "sub"]] := by
    simp [watchCacheWalk, watchWalkChildren, dependencyDir, lastName, addWatch,
      c3Cache, h1, h2, h5]
  refine ⟨he, ?_, ?_⟩ <;> rw [he] <;> decide

/-- C3 (amended): the watch-installation walk registers one watch per
dependency dir that `dependencyDir` identifies at any visited entry —
duplicates tolerated, registration order preserved — and it descends into
every directory, including recognized units, so entries inside a unit that
themselves classify as units also receive watches. -/
theorem watch_walk_registers_all_classified_units (root : Path) (e : Entry) :
    watchCacheWalk root e = (collectUnits root e).foldl addWatch [] ∧
    (∀ u, u ∈ watchCacheWalk root e ↔ u ∈ collectUnits root e) ∧
    (watchCacheWalk root e).Nodup := by
  refine ⟨watchCacheWalk_eq root e, ?_, ?_⟩
  · intro u
    rw [watchCacheWalk_eq, foldl_addWatch_mem]
    simp
  · rw [watchCacheWalk_eq]
    exact foldl_addWatch_nodup _ [] List.nodup_nil

/-- C4 (confirmed): the classifier contract of `dependencyDir`.  A regular
file named exactly `go.mod` classifies its parent directory as a unit; a
directory containing `@` is a unit root exactly when the token after the
first `@` ends in `+incompatible`, is valid semver, or has pseudo-version
shape; every other entry is not a unit; the spec's four examples classify as
stated; and pseudo-versions with non-hex alphanumeric commit hashes, which
only the pseudo-version disjunct accepts (semver rejects them), are units. -/
theorem dependencyDir_contract :
    (∀ (p : Path) (n : String),
      dependencyDir (p ++ [n]) false = if n = "go.mod" then some p else none) ∧
    (∀ (p : Path) (n : String),
      dependencyDir (p ++ [n]) true = if isUnitDirName n then some (p ++ [n]) else none) ∧
    (∀ n : String,
      isUnitDirName n =
        (n.data.any (fun c => c = '@') &&
          (hasIncompatibleSuffix (cutAfterAt n.data) ||
            semverIsValid (String.mk (cutAfterAt n.data)) ||
            isPseudoVersion (String.mk (cutAfterAt n.data))))) ∧
    isUnitDirName "pkg@v1.2.3" = true ∧
    isUnitDirName "pkg@v0.0.0-20210101000000-abcdef123456" = true ∧
    isUnitDirName "pkg@1.0+incompatible" = true ∧
    isUnitDirName "pkg@notaversion" = false ∧
    isUnitDirName "x@v01.0.0-20210101000000-zz" = true ∧
    isUnitDirName "pkg@v1.2.3-x_y.0.20210101000000-gg" = true ∧
    semverIsValid "v01.0.0-20210101000000-zz" = false ∧
    semverIsValid "v1.2.3-x_y.0.20210101000000-gg" = false ∧
    dependencyDir ["cache", "pkg@v1.2.3", "go.mod"] false = some ["cache", "pkg@v1.2.3"] := by
  refine ⟨dependencyDir_snoc_file, dependencyDir_snoc_dir, fun n => rfl,
    by decide, by decide, by decide, by decide, by decide, by decide, by decide, by decide,
    by decide⟩

/-- C5 (confirmed): one build-cache prune pass deletes exactly the files whose
path is absent from the usage set, retains every file whose path is present,
and never deletes a directory (all directories survive, possibly empty); the
tally counts exactly the deleted files. -/
theorem prune_build_deletes_exactly_unused_files (usage : List Path) (root : Path)
    (rn : String) (cs : List Entry) :
    pruneBuildCacheRun usage root (Entry.dir rn cs) =
      (Entry.dir rn (buildSurvivorsSpec usage root cs),
       buildDeletedSpec usage root cs, (buildDeletedSpec usage root cs).length) := by
  simp [pruneBuildCacheRun, pruneBuild_spec usage cs root]

/-- C6 (counterexample): the walk error guard of `pruneCaches` does not match
the claim.  A "path no longer exists" error during the module-cache walk is
not treated as a skip — the entry falls through to normal processing — and a
different walk error during the build-cache walk is not reported at all. -/
theorem prune_walk_error_policy_counterexample :
    walkErrCheck true true true ≠ (false, true) ∧
    walkErrCheck false true false ≠ (true, true) := by
  decide

/-- C6 (amended): during the module-cache prune walk an error other than
"path no longer exists" is reported non-fatally and the entry skipped, while
a "path no longer exists" error is neither reported nor skipped — the entry
falls through to normal processing (harmless, as the path is gone); during
the build-cache walk, walk errors are never reported and never skip; absent
an error nothing is reported; and in all cases the callback returns success,
so the walk continues past earlier deletions to the remaining entries. -/
theorem prune_walk_error_policy :
    (∀ isNE : Bool, walkErrCheck true true isNE = (!isNE, !isNE)) ∧
    (∀ hasErr isNE : Bool, walkErrCheck false hasErr isNE = (false, false)) ∧
    (∀ isMod isNE : Bool, walkErrCheck isMod false isNE = (false, false)) ∧
    (∀ (usage : List Path) (p : Path) (cs1 cs2 : List Entry),
      pruneBuildChildren usage p (cs1 ++ cs2) =
        ⟨(pruneBuildChildren usage p cs1).surviving ++ (pruneBuildChildren usage p cs2).surviving,
          (pruneBuildChildren usage p cs1).deleted ++ (pruneBuildChildren usage p cs2).deleted,
          (pruneBuildChildren usage p cs1).tally + (pruneBuildChildren usage p cs2).tally⟩) := by
  refine ⟨by decide, by decide, by decide, ?_⟩
  intro usage p cs1 cs2
  exact pruneBuild_append usage cs1 cs2 p

/-- C7 (confirmed): after the watch phase, an already-cancelled parent
context skips pruning and exits with code 2, the same class as an empty
usage result; both differ from normal completion (0, after pruning) and
from a hard failure (1, no pruning). -/
theorem run_outcome_exit_codes :
    (∀ mf bf : List Path, runOutcome (Except.ok (mf, bf)) true = (2, false)) ∧
    (∀ (mf bf : List Path) (c : Bool), mf.length = 0 → bf.length = 0 →
      runOutcome (Except.ok (mf, bf)) c = (2, false)) ∧
    (∀ c : Bool, runOutcome (Except.error ()) c = (1, false)) ∧
    (∀ mf bf : List Path, 1 ≤ mf.length ∨ 1 ≤ bf.length →
      runOutcome (Except.ok (mf, bf)) false = (0, true)) ∧
    (2 : Nat) ≠ 0 ∧ (2 : Nat) ≠ 1 := by
  refine ⟨?_, ?_, ?_, ?_, by decide, by decide⟩
  · intro mf bf
    simp [runOutcome]
  · intro mf bf c h1 h2
    cases c <;> simp [runOutcome, h1, h2]
  · intro c
    simp [runOutcome]
  · intro mf bf h
    have hne : ¬(mf = [] ∧ bf = []) := by
      rintro ⟨rfl, rfl⟩
      simp at h
    simp [runOutcome, hne]

/-- C7 (witness): with the watch phase succeeding, empty usage exits (2, no
prune) and non-empty usage with a live context exits (0, pruned). -/
theorem run_outcome_exit_codes_witness :
    runOutcome (Except.ok (([] : List Path), ([] : List Path))) false = (2, false) ∧
    runOutcome (Except.ok (([["m", "d@v1.0.0"]] : List Path), ([] : List Path))) false
      = (0, true) :=
  ⟨run_outcome_exit_codes.2.1 [] [] false rfl rfl,
   run_outcome_exit_codes.2.2.2.1 [["m", "d@v1.0.0"]] [] (Or.inl (by decide))⟩

/-- C8 (confirmed): pruning is idempotent for both caches — a second prune
pass against the unchanged usage set deletes nothing, its tally is zero, and
the cache state is unchanged, for every cache tree and usage set. -/
theorem prune_idempotent (usage : List Path) (root : Path) (e : Entry) :
    pruneModCacheAgain usage root (pruneModCacheRun usage root e).1 =
      ((pruneModCacheRun usage root e).1, [], 0) ∧
    pruneBuildCacheRun usage root (pruneBuildCacheRun usage root e).1 =
      ((pruneBuildCacheRun usage root e).1, [], 0) := by
  constructor
  · cases e with
    | file n => simp [pruneModCacheRun, pruneModCacheAgain]
    | dir n cs =>
      by_cases hk : (pruneModChildren usage root cs).killed
      · simp [pruneModCacheRun, hk, pruneModCacheAgain]
      · have hi := prune_idem usage cs root
        have hk2 : (pruneModChildren usage root
            (pruneModChildren usage root cs).surviving).killed = false := by
          rw [hi]
        simp [pruneModCacheRun, pruneModCacheAgain, hk, hi, hk2]
  · cases e with
    | file n => simp [pruneBuildCacheRun]
    | dir n cs =>
      have hi := pruneBuild_idem usage cs root
      simp [pruneBuildCacheRun, hi]

/-- C9 (confirmed): if either watch session fails, `watchCaches` returns no
usage sets at all (the successful session's accumulation is discarded along
with the failed one) and the run aborts as a hard failure — exit code 1,
no pruning. -/
theorem watchCaches_error_discards_usage (modRes buildRes : SessionResult)
    (mE bE c : Bool)
    (h : (mE = true ∧ modRes = Except.error ()) ∨
         (bE = true ∧ buildRes = Except.error ())) :
    watchCachesCombine mE bE modRes buildRes = Except.error () ∧
    runOutcome (watchCachesCombine mE bE modRes buildRes) c = (1, false) := by
  have hcomb : watchCachesCombine mE bE modRes buildRes = Except.error () := by
    unfold watchCachesCombine
    rcases h with ⟨hm, hr⟩ | ⟨hb, hr⟩
    · subst hm
      rw [hr]
      cases hbo : (if bE = true then buildRes else Except.ok []) <;> simp
    · subst hb
      rw [hr]
      cases hmo : (if mE = true then modRes else Except.ok []) <;> simp
  rw [hcomb]
  exact ⟨rfl, rfl⟩

/-- C9 (witness): a failed module-cache session next to a successful
build-cache session yields no usage sets and a fatal, prune-free exit. -/
theorem watchCaches_error_discards_usage_witness :
    watchCachesCombine true true (Except.error ()) (Except.ok [["b", "f"]]) =
      Except.error () ∧
    runOutcome (watchCachesCombine true true (Except.error ()) (Except.ok [["b", "f"]]))
      false = (1, false) :=
  watchCaches_error_discards_usage (Except.error ()) (Except.ok [["b", "f"]]) true true
    false (Or.inl ⟨rfl, rfl⟩)

/-- C10 (confirmed): for a directory name with two or more `@` characters the
classifier cuts at the first `@` and tests the entire remainder (which still
contains the later `@` characters) as the version token; such names are
units exactly when that remainder passes the version-token test — e.g.
`p@x@+incompatible` and `pkg@v1.2.3-a@b.0.20210101000000-gg` (a pseudo-version
whose `[^+]*` segment holds the second `@`) are units while `a@b@c` is not. -/
theorem dependencyDir_multi_at (p : Path) (n : String)
    (h : 2 ≤ countCh '@' n.data) :
    dependencyDir (p ++ [n]) true =
      (if verOK (cutAfterAt n.data) = true then some (p ++ [n]) else none) ∧
    1 ≤ countCh '@' (cutAfterAt n.data) ∧
    isUnitDirName "p@x@+incompatible" = true ∧
    isUnitDirName "pkg@v1.2.3-a@b.0.20210101000000-gg" = true ∧
    isUnitDirName "a@b@c" = false := by
  have hany : n.data.any (fun c => c = '@') = true :=
    any_of_countCh '@' n.data (le_trans (by decide) h)
  have hiu : isUnitDirName n = verOK (cutAfterAt n.data) := by
    rw [isUnitDirName, hany, Bool.true_and]
  refine ⟨?_, ?_, by decide, by decide, by decide⟩
  · rw [dependencyDir_snoc_dir, hiu]
  · rw [countCh_cutAfterAt n.data (le_trans (by decide) h)]
    omega

/-- C10 (witness): the multi-`@` name `p@x@+incompatible` (two `@`s) is
classified through the first cut and accepted via the incompatible suffix. -/
theorem dependencyDir_multi_at_witness :
    2 ≤ countCh '@' "p@x@+incompatible".data ∧
    dependencyDir (["mod"] ++ ["p@x@+incompatible"]) true =
      (if verOK (cutAfterAt "p@x@+incompatible".data) = true
       then some (["mod"] ++ ["p@x@+incompatible"]) else none) :=
  ⟨by decide,
   (dependencyDir_multi_at ["mod"] "p@x@+incompatible" (by decide)).1⟩

end GoCachePrune
